import Mathlib

/-!
Shallow embedding of the Slide_Maker backend (src/backend/app.py and
src/backend/backend_Mass_Update/utils/*.py) for checking the
natural-language specification against the code.

Layouts are modelled by their name and the ordered list of placeholder
kinds; slides by an ordered list of shapes; the slide ordering by a list
of opaque identifiers.  Python strings are modelled by `String`, the
substring test `pat in s` by an executable boolean infix check on the
character lists.
-/

namespace SlideMaker

/-- Placeholder kinds distinguished by app.py: TITLE, BODY, OBJECT, PICTURE;
`other` covers every other kind and slots whose kind resolution fails
(the `except: continue` branches). -/
inductive PKind where
  | title
  | body
  | obj
  | picture
  | other
deriving DecidableEq, Repr

/-- A concrete layout of the uploaded template: free-text name and the
ordered placeholder collection. -/
structure Layout where
  name : String
  placeholders : List PKind
deriving DecidableEq, Repr

/-- One entry of PREDEFINED_LAYOUTS in app.py. -/
structure LayoutConfig where
  name : String
  keywords : List String
  hasImage : Bool
  contentBoxes : Nat
deriving DecidableEq, Repr

/-- The PREDEFINED_LAYOUTS table of app.py, as a lookup from the
layout-type key. -/
def PREDEFINED_LAYOUTS (k : String) : Option LayoutConfig :=
  if k = "title_content" then
    some ⟨"Title and Content", ["title", "content", "body", "text", "only"], false, 1⟩
  else if k = "title_two_content" then
    some ⟨"Title and Two Content", ["two", "comparison", "columns", "divided"], false, 2⟩
  else if k = "title_image_content" then
    some ⟨"Title Image and Content", ["picture", "image", "content", "photo", "text"], true, 1⟩
  else if k = "title_image" then
    some ⟨"Title and Image", ["picture", "image", "photo", "blank"], true, 0⟩
  else none

/-- Python `name.lower()`: ASCII lowercasing of the string (layout names
and the catalog's data are ASCII, so `Char.toLower` models `str.lower`). -/
def toLowerStr (s : String) : String :=
  String.mk (s.toList.map Char.toLower)

/-- Python `pat in s` on lists of characters: `pat` occurs as a contiguous
sublist of `s`. -/
def subList (pat s : List Char) : Bool :=
  match s with
  | [] => pat.isEmpty
  | _ :: rest => pat.isPrefixOf s || subList pat rest

/-- Python `pat in s` for strings (substring containment). -/
def containsStr (s pat : String) : Bool :=
  subList pat.toList s.toList

/-- The exclude_patterns list of find_layout_by_type. -/
def exclude_patterns : List String :=
  ["mango", "cover", "branded", "anvil", "thank", "section", "divider"]

/-- `any(pattern in layout_name_lower for pattern in exclude_patterns)`. -/
def excludedLayout (l : Layout) : Bool :=
  exclude_patterns.any (fun p => containsStr (toLowerStr l.name) p)

/-- `has_title` of the structural scan: some placeholder is a TITLE. -/
def hasTitle (l : Layout) : Bool :=
  l.placeholders.any (fun k => k = PKind.title)

/-- `body_count` of the structural scan: number of BODY/OBJECT slots. -/
def bodyCount (l : Layout) : Nat :=
  (l.placeholders.filter (fun k => k = PKind.body || k = PKind.obj)).length

/-- `has_picture` of the structural scan. -/
def hasPicture (l : Layout) : Bool :=
  l.placeholders.any (fun k => k = PKind.picture)

/-- `placeholder_count` of the structural scan: every slot counts, also
ones whose kind resolution fails. -/
def phCount (l : Layout) : Nat :=
  l.placeholders.length

/-- Keyword score of the second tier: how many of the type's keywords
occur in the lowercased layout name. -/
def kwScore (cfg : LayoutConfig) (l : Layout) : Int :=
  ((cfg.keywords.filter (fun k => containsStr (toLowerStr l.name) k)).length : Int)

/-- `structure_score` of the third tier, per layout type (0 when the
layout type matches no branch, exactly as the Python code leaves the
score at 0). -/
def structScore (lt : String) (l : Layout) : Int :=
  if lt = "title_content" then
    if hasTitle l && decide (1 ≤ bodyCount l) && !hasPicture l then 100 - (phCount l : Int) else 0
  else if lt = "title_two_content" then
    if hasTitle l && decide (2 ≤ bodyCount l) then 100 - (phCount l : Int) else 0
  else if lt = "title_image_content" then
    if hasTitle l && decide (1 ≤ bodyCount l) && hasPicture l then 100 - (phCount l : Int) else 0
  else if lt = "title_image" then
    if hasTitle l && hasPicture l && decide (bodyCount l = 0) then 200 - (phCount l : Int)
    else if hasTitle l && hasPicture l then 50 - (phCount l : Int)
    else 0
  else 0

/-- The best-so-far scan shared by the keyword and structural tiers:
skip excluded layouts, keep the first layout whose score strictly
exceeds the running best (initially 0), return it only if one was kept
(i.e. some score was strictly positive). -/
def scanBest (f : Layout → Int) : List Layout → Option Layout → Int → Option Layout
  | [], best, _ => best
  | l :: ls, best, bs =>
    if excludedLayout l then scanBest f ls best bs
    else if bs < f l then scanBest f ls (some l) (f l)
    else scanBest f ls best bs

/-- Tier 1 of find_layout_by_type: first non-excluded layout whose
lowercase name equals the config's display name lowercased. -/
def tierExactName (layouts : List Layout) (cfg : LayoutConfig) : Option Layout :=
  layouts.find? (fun l => !excludedLayout l && (toLowerStr l.name) == (toLowerStr cfg.name))

/-- Tier 2: keyword scan. -/
def tierKeyword (layouts : List Layout) (cfg : LayoutConfig) : Option Layout :=
  scanBest (kwScore cfg) layouts none 0

/-- Tier 3: structural scan. -/
def tierStructural (layouts : List Layout) (lt : String) : Option Layout :=
  scanBest (structScore lt) layouts none 0

/-- Tiers 1-3 of find_layout_by_type chained (all three apply the
exclusion list). -/
def tier123 (layouts : List Layout) (cfg : LayoutConfig) (lt : String) : Option Layout :=
  match tierExactName layouts cfg with
  | some l => some l
  | none =>
    match tierKeyword layouts cfg with
    | some l => some l
    | none => tierStructural layouts lt

/-- `has_body` of the fallback tier. -/
def hasBody (l : Layout) : Bool :=
  l.placeholders.any (fun k => k = PKind.body || k = PKind.obj)

/-- The generic fallback tier: first layout with a title and a body slot
(note: the Python fallback loop applies NO exclusion check), then the
ultimate fallback on the raw layout list. -/
def tierFallback (layouts : List Layout) : Option Layout :=
  match layouts.find? (fun l => hasTitle l && hasBody l) with
  | some l => some l
  | none => if 1 < layouts.length then layouts[1]? else layouts[0]?

/-- find_layout_by_type of app.py over the master's layout list. -/
def find_layout_by_type (layouts : List Layout) (lt : String) : Option Layout :=
  match PREDEFINED_LAYOUTS lt with
  | none => none
  | some cfg =>
    match tier123 layouts cfg lt with
    | some l => some l
    | none => tierFallback layouts

/-! ## Slide ordering (add_slide: append + reposition) -/

/-- The repositioning block of add_slide over the opaque slide-id list:
`slides = list(xml_slides); moved = slides.pop();
insert_pos = min(position, len(slides)); slides.insert(insert_pos, moved)`.
An empty list is left unchanged (the `len(slides) > 0` guard). -/
def repositionLast {α : Type} (ids : List α) (pos : Nat) : List α :=
  match ids.getLast? with
  | none => ids
  | some x => ids.dropLast.insertIdx (min pos ids.dropLast.length) x

/-- The slide-sequence effect of add_slide: clamp the validated position
to `[0, total]`, append the new slide at the end (`prs.slides.add_slide`),
then reposition it when `position < total_slides`. -/
def addSlideAt {α : Type} (slides : List α) (x : α) (pos : Nat) : List α :=
  let total := slides.length
  let p := min pos total
  let appended := slides ++ [x]
  if p < total then repositionLast appended p else appended

/-! ## Slide shapes (two-content composition, image insertion) -/

/-- Length in EMU of `Inches(x)` for the fixed geometry constants used by
app.py (1 inch = 914400 EMU). -/
def emuOfInchHundredths (x : Nat) : Nat := x * 9144

/-- A shape on the new slide: a placeholder instance carrying its kind
and text, or a synthesized textbox with its geometry (EMU) and text. -/
inductive SlideShape where
  | ph (kind : PKind) (text : String)
  | textbox (left top width height : Nat) (text : String)
deriving DecidableEq, Repr

/-- Is this shape a BODY/OBJECT placeholder (the content_placeholders
filter of the two-content branch)? -/
def isBodyPh (s : SlideShape) : Bool :=
  match s with
  | SlideShape.ph kind _ => kind = PKind.body || kind = PKind.obj
  | SlideShape.textbox _ _ _ _ _ => false

/-- The BODY/OBJECT placeholders of the slide, in slide order. -/
def bodyPlaceholders (shapes : List SlideShape) : List SlideShape :=
  shapes.filter isBodyPh

/-- Write `t` into the first BODY/OBJECT placeholder encountered
(`tf.clear(); p.text = t`). -/
def setFirstBody : List SlideShape → String → List SlideShape
  | [], _ => []
  | s :: rest, t =>
    if isBodyPh s then
      match s with
      | SlideShape.ph kind _ => SlideShape.ph kind t :: rest
      | SlideShape.textbox a b c d _ => SlideShape.textbox a b c d t :: rest
    else s :: setFirstBody rest t

/-- Write `t1` into the first and `t2` into the second BODY/OBJECT
placeholder of the slide. -/
def setFirstTwoBodies : List SlideShape → String → String → List SlideShape
  | [], _, _ => []
  | s :: rest, t1, t2 =>
    if isBodyPh s then
      match s with
      | SlideShape.ph kind _ => SlideShape.ph kind t1 :: setFirstBody rest t2
      | SlideShape.textbox a b c d _ => SlideShape.textbox a b c d t1 :: setFirstBody rest t2
    else s :: setFirstTwoBodies rest t1 t2

/-- The left synthesized textbox of the two-content fallback:
`add_textbox(Inches(0.5), Inches(1.8), Inches(4.2), Inches(5))`. -/
def twoContentBox1 (t : String) : SlideShape :=
  SlideShape.textbox (emuOfInchHundredths 50) (emuOfInchHundredths 180)
    (emuOfInchHundredths 420) (emuOfInchHundredths 500) t

/-- The right synthesized textbox of the two-content fallback:
`add_textbox(Inches(5.2), Inches(1.8), Inches(4.2), Inches(5))`. -/
def twoContentBox2 (t : String) : SlideShape :=
  SlideShape.textbox (emuOfInchHundredths 520) (emuOfInchHundredths 180)
    (emuOfInchHundredths 420) (emuOfInchHundredths 500) t

/-- The two-content branch of add_slide: with at least two BODY/OBJECT
placeholders fill the first two; otherwise append the two fixed-geometry
textboxes. -/
def twoContentStep (shapes : List SlideShape) (t1 t2 : String) : List SlideShape :=
  if 2 ≤ (bodyPlaceholders shapes).length then
    setFirstTwoBodies shapes t1 t2
  else
    shapes ++ [twoContentBox1 t1, twoContentBox2 t2]

/-! ## Image fallback sizing -/

/-- `max_height = Inches(5)` of the image fallback path, in EMU. -/
def MAX_IMG_HEIGHT : Nat := emuOfInchHundredths 500

/-- `max_width = Inches(3)` of the image fallback path, in EMU. -/
def MAX_IMG_WIDTH : Nat := emuOfInchHundredths 300

/-- The image fallback sizing of add_slide: the picture is inserted with
`height = max_height` (the library scales the width to `w` from the
native aspect); then if `w > max_width` the width is clamped to
`max_width` and the height recomputed as
`int(max_width * (height / width))`, i.e. the floor of the exact product
(exact-rational model of the float computation, whose error is far below
one EMU at these magnitudes). Returns (width, height). -/
def fitImageFallback (w h : Nat) : Nat × Nat :=
  if MAX_IMG_WIDTH < w then (MAX_IMG_WIDTH, MAX_IMG_WIDTH * h / w) else (w, h)

/-! ## Mass-update paragraph processing (utils/ppt_processor.py) -/

/-- One literal replacement pass, the model of
`re.compile(re.escape(old)).sub(new, text)`: scan left to right, replace
each non-overlapping occurrence of `key`, continue after the replaced
text.  `fuel` bounds the recursion by the length of the scanned list. -/
def replaceAllAux (key val : List Char) : Nat → List Char → List Char
  | _, [] => []
  | 0, s => s
  | Nat.succ fuel, c :: rest =>
    if key.isPrefixOf (c :: rest) then
      val ++ replaceAllAux key val fuel (rest.drop (key.length - 1))
    else
      c :: replaceAllAux key val fuel rest

/-- Replace every occurrence of `key` in `s` by `val` (for the nonempty
keys produced by the config loader; an empty key is returned unchanged,
a case the pipeline never produces). -/
def replaceAll (key val s : List Char) : List Char :=
  if key.isEmpty then s else replaceAllAux key val s.length s

/-- `for pattern, new in patterns: new_text = pattern.sub(new, new_text)`:
the replacement passes applied sequentially in configuration order. -/
def applyReplacements (ps : List (List Char × List Char)) (s : List Char) : List Char :=
  ps.foldl (fun t p => replaceAll p.1 p.2 t) s

/-- `any(k in original_text for k in keys)`: some replacement key occurs
in the text. -/
def containsAnyKey (ps : List (List Char × List Char)) (s : List Char) : Bool :=
  ps.any (fun p => subList p.1 s)

/-- Concatenation of the run texts of a paragraph
(`"".join(run.text for run in paragraph.runs)`). -/
def concatRuns (runs : List (List Char)) : List Char :=
  runs.foldl (fun a r => a ++ r) []

/-- The dict keys of an association list are pairwise distinct (the
invariant a Python dict maintains by construction). -/
def keysNodup (m : List (String × String)) : Prop :=
  (m.map Prod.fst).Nodup

/-- process_paragraph of update_ppt_text, on the list of run texts of one
paragraph: no runs or no key present leaves the runs untouched; otherwise
all replacements are applied to the concatenated run text, and when that
changes the text, the whole result goes into the first run and every
later run is blanked. -/
def process_paragraph (ps : List (List Char × List Char)) (runs : List (List Char)) :
    List (List Char) :=
  if runs.isEmpty then runs
  else if !containsAnyKey ps (concatRuns runs) then runs
  else if applyReplacements ps (concatRuns runs) = concatRuns runs then runs
  else applyReplacements ps (concatRuns runs) :: List.replicate (runs.length - 1) []

/-! ## Config loader (utils/config_loader.py) -/

/-- The whitespace class of Python's `str.strip()` / `\s` for the ASCII
range (space, tab, newline, carriage return, vertical tab, form feed). -/
def pySpace (c : Char) : Bool :=
  c = ' ' || c = '\t' || c = '\n' || c = '\r' || c = '\x0b' || c = '\x0c'

/-- Python `raw.strip()` (ASCII model). -/
def pyStrip (s : String) : String :=
  String.mk (((s.toList.dropWhile pySpace).reverse.dropWhile pySpace).reverse)

/-- `re.match(r'^\s*#', raw)`: optional leading whitespace then `#`. -/
def isCommentLine (raw : String) : Bool :=
  match raw.toList.dropWhile pySpace with
  | [] => false
  | c :: _ => c = '#'

/-- Python `'=' in line`. -/
def hasEq (line : String) : Bool :=
  line.toList.any (fun c => c = '=')

/-- Python `line.split('=', 1)`: the part before the first `=` and the
part after it. -/
def splitEq1 (line : String) : String × String :=
  let before := line.toList.takeWhile (fun c => c ≠ '=')
  let after := (line.toList.dropWhile (fun c => c ≠ '=')).drop 1
  (String.mk before, String.mk after)

/-- Parse one raw config line into its key/value pair, or none for
comment lines, blank lines and malformed lines (no `=`, or empty key). -/
def parseKV (raw : String) : Option (String × String) :=
  if isCommentLine raw then none
  else if pyStrip raw = "" then none
  else if !hasEq (pyStrip raw) then none
  else if pyStrip (splitEq1 (pyStrip raw)).1 = "" then none
  else some (pyStrip (splitEq1 (pyStrip raw)).1, pyStrip (splitEq1 (pyStrip raw)).2)

/-- Association-list lookup modelling `replacements.get(k)` /
`replacements[k]`. -/
def alLookup : List (String × String) → String → Option String
  | [], _ => none
  | p :: rest, k => if p.1 = k then some p.2 else alLookup rest k

/-- `replacements[key] = val` on a Python dict: update the value in
place when the key exists, else append the new binding. -/
def alUpsert : List (String × String) → String → String → List (String × String)
  | [], k, v => [(k, v)]
  | p :: rest, k, v =>
    if p.1 = k then (p.1, v) :: rest else p :: alUpsert rest k v

/-- Parser state: the mapping under construction, and the recorded
malformed and duplicate warnings (line number and content). -/
structure LoadState where
  replacements : List (String × String)
  malformed : List (Nat × String)
  duplicates : List (Nat × String)
deriving DecidableEq, Repr

/-- Process one line of the main loop of load_replacements: comments and
blanks are skipped, lines without `=` or with an empty key are recorded
as malformed, and a duplicate warning is recorded only when the key is
already present WITH A DIFFERENT value; the new value always wins. -/
def processLine (st : LoadState) (idx : Nat) (raw : String) : LoadState :=
  if isCommentLine raw then st
  else if pyStrip raw = "" then st
  else if !hasEq (pyStrip raw) then
    { st with malformed := st.malformed ++ [(idx, raw)] }
  else if pyStrip (splitEq1 (pyStrip raw)).1 = "" then
    { st with malformed := st.malformed ++ [(idx, raw)] }
  else
    { replacements :=
        alUpsert st.replacements (pyStrip (splitEq1 (pyStrip raw)).1)
          (pyStrip (splitEq1 (pyStrip raw)).2)
      malformed := st.malformed
      duplicates :=
        match alLookup st.replacements (pyStrip (splitEq1 (pyStrip raw)).1) with
        | some v0 =>
          if v0 ≠ pyStrip (splitEq1 (pyStrip raw)).2 then
            st.duplicates ++ [(idx, pyStrip (splitEq1 (pyStrip raw)).1)]
          else st.duplicates
        | none => st.duplicates }

/-- The main parsing loop of load_replacements, carrying the 1-based line
number alongside the state. -/
def parseLoop (st : LoadState) (i : Nat) : List String → LoadState
  | [] => st
  | raw :: rest => parseLoop (processLine st i raw) (i + 1) rest

/-- The main parsing loop of load_replacements over the (newline-split)
lines, starting from the empty state at line 1. -/
def parseLines (lines : List String) : LoadState :=
  parseLoop ⟨[], [], []⟩ 1 lines

/-- The inverse-pair scan of load_replacements: the pairs `(a, b)` of the
final mapping for which `replacements.get(b) == a`. -/
def inversePairs (m : List (String × String)) : List (String × String) :=
  m.filter (fun p => alLookup m p.2 == some p.1)

/-- load_replacements on the logical lines of the configuration file:
parse every line, then fail iff some inverse/conflicting pair is present
in the parsed mapping, else return the final state (mapping plus
recorded warnings). -/
def load_replacements (lines : List String) : Except String LoadState :=
  let st := parseLines lines
  if (inversePairs st.replacements).isEmpty then Except.ok st
  else Except.error "Inverse/conflicting replacement pairs found in config"

/-- Did load_replacements raise the inverse-pair ValueError? -/
def isLoadError (r : Except String LoadState) : Bool :=
  match r with
  | Except.error _ => true
  | Except.ok _ => false

/-- The structural composition required by the third tier for a layout
type, read off the scoring conditions of find_layout_by_type (for
`title_image` both accepted compositions — with and without body slots —
count as qualifying). -/
def structQualifies (lt : String) (l : Layout) : Bool :=
  if lt = "title_content" then hasTitle l && decide (1 ≤ bodyCount l) && !hasPicture l
  else if lt = "title_two_content" then hasTitle l && decide (2 ≤ bodyCount l)
  else if lt = "title_image_content" then hasTitle l && decide (1 ≤ bodyCount l) && hasPicture l
  else if lt = "title_image" then hasTitle l && hasPicture l
  else false

/-- Left edge of a shape (EMU); placeholders are not given geometry in
this model. -/
def shapeLeft (s : SlideShape) : Nat :=
  match s with
  | SlideShape.ph _ _ => 0
  | SlideShape.textbox l _ _ _ _ => l

/-- Width of a shape (EMU). -/
def shapeWidth (s : SlideShape) : Nat :=
  match s with
  | SlideShape.ph _ _ => 0
  | SlideShape.textbox _ _ w _ _ => w

/-! ## Helper lemmas -/

/-- find? hits `a` when every element of the prefix fails the predicate
and `a` satisfies it. -/
theorem find?_append_first {α : Type} (p : α → Bool) (pre : List α) (a : α) (post : List α)
    (hpre : ∀ x ∈ pre, p x = false) (ha : p a = true) :
    List.find? p (pre ++ a :: post) = some a := by
  induction pre with
  | nil => simp [List.find?_cons, ha]
  | cons y ys ih =>
    have hy : p y = false := hpre y (by simp)
    simp only [List.cons_append, List.find?_cons, hy]
    exact ih (fun x hx => hpre x (by simp [hx]))

/-- A layout produced by the best-so-far scan is never excluded (given
that the incoming best is not). -/
theorem scanBest_not_excluded (f : Layout → Int) (ls : List Layout)
    (best : Option Layout) (bs : Int) (l : Layout)
    (hbest : ∀ b, best = some b → excludedLayout b = false)
    (h : scanBest f ls best bs = some l) :
    excludedLayout l = false := by
  induction ls generalizing best bs with
  | nil => exact hbest l h
  | cons y ys ih =>
    unfold scanBest at h
    by_cases hy : excludedLayout y = true
    · rw [if_pos hy] at h
      exact ih best bs hbest h
    · rw [if_neg hy] at h
      by_cases hs : bs < f y
      · rw [if_pos hs] at h
        refine ih (some y) (f y) ?_ h
        intro b hb
        cases hb
        exact Bool.not_eq_true _ ▸ hy
      · rw [if_neg hs] at h
        exact ih best bs hbest h

/-- The best-so-far scan keeps the incoming best when no non-excluded
element beats the incoming score. -/
theorem scanBest_stable (f : Layout → Int) (ls : List Layout)
    (best : Option Layout) (bs : Int)
    (h : ∀ x ∈ ls, excludedLayout x = false → f x ≤ bs) :
    scanBest f ls best bs = best := by
  induction ls generalizing best bs with
  | nil => rfl
  | cons y ys ih =>
    unfold scanBest
    by_cases hy : excludedLayout y = true
    · rw [if_pos hy]
      exact ih best bs (fun x hx => h x (by simp [hx]))
    · rw [if_neg hy]
      have hle : f y ≤ bs := h y (by simp) (Bool.not_eq_true _ ▸ hy)
      rw [if_neg (not_lt.mpr hle)]
      exact ih best bs (fun x hx => h x (by simp [hx]))

/-- The best-so-far scan returns the first non-excluded element whose
score strictly beats everything before it and is not beaten afterwards. -/
theorem scanBest_first_max (f : Layout → Int) (pre : List Layout) (l0 : Layout)
    (post : List Layout) (best : Option Layout) (bs : Int)
    (hl0 : excludedLayout l0 = false)
    (hbs : bs < f l0)
    (hpre : ∀ x ∈ pre, excludedLayout x = false → f x < f l0)
    (hpost : ∀ x ∈ post, excludedLayout x = false → f x ≤ f l0) :
    scanBest f (pre ++ l0 :: post) best bs = some l0 := by
  induction pre generalizing best bs with
  | nil =>
    simp only [List.nil_append]
    unfold scanBest
    rw [if_neg (by simp [hl0]), if_pos hbs]
    exact scanBest_stable f post (some l0) (f l0) hpost
  | cons y ys ih =>
    simp only [List.cons_append]
    unfold scanBest
    by_cases hy : excludedLayout y = true
    · rw [if_pos hy]
      exact ih best bs hbs (fun x hx => hpre x (by simp [hx]))
    · rw [if_neg hy]
      have hylt : f y < f l0 := hpre y (by simp) (Bool.not_eq_true _ ▸ hy)
      by_cases hs : bs < f y
      · rw [if_pos hs]
        exact ih (some y) (f y) hylt (fun x hx => hpre x (by simp [hx]))
      · rw [if_neg hs]
        exact ih best bs hbs (fun x hx => hpre x (by simp [hx]))

/-! ## Claims -/

/-- C10: for every layouts list, calling find_layout_by_type with a
layout-type key outside the predefined catalog returns none, regardless
of the layouts. -/
theorem find_layout_unknown_type_none (layouts : List Layout) (lt : String)
    (h : PREDEFINED_LAYOUTS lt = none) :
    find_layout_by_type layouts lt = none := by
  unfold find_layout_by_type
  rw [h]

/-- Witness for C10 at the key "custom_layout" and a structurally ideal
layout list. -/
theorem find_layout_unknown_type_none_witness :
    PREDEFINED_LAYOUTS "custom_layout" = none ∧
    find_layout_by_type [⟨"Title and Content", [PKind.title, PKind.body]⟩] "custom_layout"
      = none :=
  ⟨by decide, find_layout_unknown_type_none _ _ (by decide)⟩

/-- C1 (amended): a layout produced by the exact-name, keyword or
structural tier is never excluded; the generic fallback tier applies no
exclusion check. -/
theorem tier123_never_excluded (layouts : List Layout) (cfg : LayoutConfig) (lt : String)
    (l : Layout) (h : tier123 layouts cfg lt = some l) :
    excludedLayout l = false := by
  unfold tier123 at h
  cases h1 : tierExactName layouts cfg with
  | some l1 =>
    rw [h1] at h
    cases h
    have := List.find?_some h1
    simp only [Bool.and_eq_true, Bool.not_eq_true'] at this
    exact this.1
  | none =>
    rw [h1] at h
    cases h2 : tierKeyword layouts cfg with
    | some l2 =>
      rw [h2] at h
      cases h
      exact scanBest_not_excluded _ layouts none 0 l (by intro b hb; cases hb) h2
    | none =>
      rw [h2] at h
      exact scanBest_not_excluded _ layouts none 0 l (by intro b hb; cases hb) h

/-- Witness for C1's amended theorem: the exact-name tier yields the
non-excluded layout named "Title and Content". -/
theorem tier123_never_excluded_witness :
    excludedLayout ⟨"Title and Content", [PKind.title, PKind.body]⟩ = false :=
  tier123_never_excluded [⟨"Title and Content", [PKind.title, PKind.body]⟩]
    ⟨"Title and Content", ["title", "content", "body", "text", "only"], false, 1⟩
    "title_content" _ (by decide)

/-- Counterexample to C1 as stated: on a template whose only layout is an
excluded one carrying a title and a body slot, the generic fallback tier
returns that excluded layout. -/
theorem find_layout_returns_excluded_counterexample :
    excludedLayout ⟨"mango layout", [PKind.title, PKind.body]⟩ = true ∧
    find_layout_by_type [⟨"mango layout", [PKind.title, PKind.body]⟩] "title_content"
      = some ⟨"mango layout", [PKind.title, PKind.body]⟩ := by
  decide

/-- C4: when a non-excluded layout whose lowercase name equals the
type's display name (lowercased) exists, find_layout_by_type returns the
first such layout, before any lower tier is consulted. -/
theorem exact_name_tier_precedence (pre post : List Layout) (l0 : Layout) (lt : String)
    (cfg : LayoutConfig) (hcfg : PREDEFINED_LAYOUTS lt = some cfg)
    (hl0ex : excludedLayout l0 = false)
    (hl0name : toLowerStr l0.name = toLowerStr cfg.name)
    (hpre : ∀ x ∈ pre, excludedLayout x = false → toLowerStr x.name ≠ toLowerStr cfg.name) :
    find_layout_by_type (pre ++ l0 :: post) lt = some l0 := by
  have hfind : tierExactName (pre ++ l0 :: post) cfg = some l0 := by
    unfold tierExactName
    apply find?_append_first
    · intro x hx
      by_cases hex : excludedLayout x = true
      · simp [hex]
      · have := hpre x hx (Bool.not_eq_true _ ▸ hex)
        simp only [Bool.and_eq_false_iff]
        right
        exact beq_eq_false_iff_ne.mpr this
    · simp [hl0ex, hl0name]
  unfold find_layout_by_type tier123
  simp only [hcfg, hfind]

/-- Witness for C4: the "Title and Content" layout is picked over the
preceding excluded "Mango Cover" layout and the following structurally
richer layout. -/
theorem exact_name_tier_precedence_witness :
    find_layout_by_type
      [⟨"Mango Cover", [PKind.title, PKind.body]⟩,
       ⟨"Title and Content", [PKind.title, PKind.body]⟩,
       ⟨"Plain", [PKind.title, PKind.body]⟩] "title_content"
      = some ⟨"Title and Content", [PKind.title, PKind.body]⟩ :=
  exact_name_tier_precedence [⟨"Mango Cover", [PKind.title, PKind.body]⟩]
    [⟨"Plain", [PKind.title, PKind.body]⟩]
    ⟨"Title and Content", [PKind.title, PKind.body]⟩ "title_content"
    ⟨"Title and Content", ["title", "content", "body", "text", "only"], false, 1⟩
    (by decide) (by decide) (by decide) (by decide)

/-- C3: repositioning the just-appended slide is a total pure reorder:
the new slide ends at min(requestedPosition, currentOrderLength), the
order has one more slide than before the append, and removing the new
slide from the result restores the previous ordering exactly (no slide
lost, relative order preserved). -/
theorem reposition_atomic {α : Type} (old : List α) (x : α) (pos : Nat) :
    repositionLast (old ++ [x]) pos = List.insertIdx (min pos old.length) x old ∧
    (repositionLast (old ++ [x]) pos).length = old.length + 1 ∧
    (repositionLast (old ++ [x]) pos)[min pos old.length]? = some x ∧
    (repositionLast (old ++ [x]) pos).eraseIdx (min pos old.length) = old := by
  have hmin : min pos old.length ≤ old.length := Nat.min_le_right _ _
  have h1 : repositionLast (old ++ [x]) pos = List.insertIdx (min pos old.length) x old := by
    unfold repositionLast
    rw [List.getLast?_concat, List.dropLast_concat]
  refine ⟨h1, ?_, ?_, ?_⟩
  · rw [h1, List.length_insertIdx _ _ hmin]
  · rw [h1]
    have hlt : min pos old.length < (List.insertIdx (min pos old.length) x old).length := by
      rw [List.length_insertIdx _ _ hmin]
      omega
    rw [List.getElem?_eq_getElem hlt, List.getElem_insertIdx_self old x _ hmin]
  · rw [h1, List.eraseIdx_insertIdx]

/-- C5: appending a slide and repositioning it yields an ordering with
exactly one more slide, the new slide sitting at the requested position
clamped to [0, previous slide count], and the previous ordering restored
when the new slide is removed. -/
theorem add_slide_count_position {α : Type} (slides : List α) (x : α) (pos : Nat) :
    (addSlideAt slides x pos).length = slides.length + 1 ∧
    (addSlideAt slides x pos)[min pos slides.length]? = some x ∧
    (addSlideAt slides x pos).eraseIdx (min pos slides.length) = slides := by
  unfold addSlideAt
  by_cases h : min pos slides.length < slides.length
  · rw [if_pos h]
    obtain ⟨-, h2, h3, h4⟩ := reposition_atomic slides x (min pos slides.length)
    have hmm : min (min pos slides.length) slides.length = min pos slides.length := by omega
    rw [hmm] at h3 h4
    exact ⟨h2, h3, h4⟩
  · rw [if_neg h]
    have heq : min pos slides.length = slides.length := by omega
    rw [heq]
    refine ⟨by simp, List.getElem?_concat_length slides x, ?_⟩
    rw [List.eraseIdx_append_of_length_le (Nat.le_refl _)]
    simp

/-- C6: the two-content branch against a slide with zero or one
BODY/OBJECT placeholder synthesizes exactly the two fixed-geometry
textboxes, the first carrying body text 1 and the second body text 2;
the boxes do not overlap (the first ends left of where the second
starts) and the slide's body-placeholder list is untouched. -/
theorem two_content_synthesizes_textboxes (shapes : List SlideShape) (t1 t2 : String)
    (h : (bodyPlaceholders shapes).length ≤ 1) :
    twoContentStep shapes t1 t2 = shapes ++ [twoContentBox1 t1, twoContentBox2 t2] ∧
    shapeLeft (twoContentBox1 t1) + shapeWidth (twoContentBox1 t1)
      ≤ shapeLeft (twoContentBox2 t2) ∧
    bodyPlaceholders (twoContentStep shapes t1 t2) = bodyPlaceholders shapes := by
  have hbranch : twoContentStep shapes t1 t2
      = shapes ++ [twoContentBox1 t1, twoContentBox2 t2] := by
    unfold twoContentStep
    rw [if_neg (by omega)]
  refine ⟨hbranch,
    by norm_num [twoContentBox1, twoContentBox2, shapeLeft, shapeWidth, emuOfInchHundredths], ?_⟩
  rw [hbranch]
  unfold bodyPlaceholders
  rw [List.filter_append]
  simp [twoContentBox1, twoContentBox2, isBodyPh]

/-- Witness for C6: the spec's end-to-end scenario, a slide instantiated
from a layout with a title and a single body placeholder, body texts
"Left" and "Right". -/
theorem two_content_synthesizes_textboxes_witness :
    twoContentStep [SlideShape.ph PKind.title "", SlideShape.ph PKind.body ""] "Left" "Right"
      = [SlideShape.ph PKind.title "", SlideShape.ph PKind.body "",
         twoContentBox1 "Left", twoContentBox2 "Right"] ∧
    bodyPlaceholders
        (twoContentStep [SlideShape.ph PKind.title "", SlideShape.ph PKind.body ""]
          "Left" "Right")
      = bodyPlaceholders [SlideShape.ph PKind.title "", SlideShape.ph PKind.body ""] :=
  ⟨(two_content_synthesizes_textboxes _ "Left" "Right" (by decide)).1,
   (two_content_synthesizes_textboxes _ "Left" "Right" (by decide)).2.2⟩

/-- C7 (amended): the image fallback path keeps the picture inside the
fixed bounds — width at most Inches(3) and height at most the inserted
Inches(5) — and, when the picture is scaled down for exceeding the
maximum width, the new height is the floor of maxWidth x height / width,
so the original height/width ratio is preserved up to the downward
integer rounding (within one EMU of exact), not exactly. -/
theorem image_fallback_bounds (w : Nat) :
    (fitImageFallback w MAX_IMG_HEIGHT).1 ≤ MAX_IMG_WIDTH ∧
    (fitImageFallback w MAX_IMG_HEIGHT).2 ≤ MAX_IMG_HEIGHT ∧
    (MAX_IMG_WIDTH < w →
      (fitImageFallback w MAX_IMG_HEIGHT).2 * w
        ≤ MAX_IMG_HEIGHT * (fitImageFallback w MAX_IMG_HEIGHT).1 ∧
      MAX_IMG_HEIGHT * (fitImageFallback w MAX_IMG_HEIGHT).1
        < ((fitImageFallback w MAX_IMG_HEIGHT).2 + 1) * w) := by
  unfold fitImageFallback
  by_cases h : MAX_IMG_WIDTH < w
  · rw [if_pos h]
    simp only
    have hw : 0 < w := lt_trans (by decide) h
    have hdm := Nat.div_add_mod (MAX_IMG_WIDTH * MAX_IMG_HEIGHT) w
    have hmod : (MAX_IMG_WIDTH * MAX_IMG_HEIGHT) % w < w := Nat.mod_lt _ hw
    refine ⟨Nat.le_refl _, ?_, fun _ => ⟨?_, ?_⟩⟩
    · calc MAX_IMG_WIDTH * MAX_IMG_HEIGHT / w
          ≤ MAX_IMG_WIDTH * MAX_IMG_HEIGHT / MAX_IMG_WIDTH :=
            Nat.div_le_div_left (le_of_lt h) (by decide)
        _ = MAX_IMG_HEIGHT := Nat.mul_div_cancel_left _ (by decide)
    · calc MAX_IMG_WIDTH * MAX_IMG_HEIGHT / w * w
          ≤ MAX_IMG_WIDTH * MAX_IMG_HEIGHT := Nat.div_mul_le_self _ _
        _ = MAX_IMG_HEIGHT * MAX_IMG_WIDTH := Nat.mul_comm _ _
    · have hexp : (MAX_IMG_WIDTH * MAX_IMG_HEIGHT / w + 1) * w
          = w * (MAX_IMG_WIDTH * MAX_IMG_HEIGHT / w) + w := by ring
      rw [hexp, Nat.mul_comm MAX_IMG_HEIGHT MAX_IMG_WIDTH]
      linarith [hdm, hmod]
  · rw [if_neg h]
    exact ⟨le_of_not_lt h, Nat.le_refl _, fun hc => absurd hc h⟩

/-- Witness for C7's amended theorem at a scaled-down input (a picture
whose width after the height-limited insertion is 3000000 EMU). -/
theorem image_fallback_bounds_witness :
    (fitImageFallback 3000000 MAX_IMG_HEIGHT).1 ≤ MAX_IMG_WIDTH ∧
    (fitImageFallback 3000000 MAX_IMG_HEIGHT).2 * 3000000
      ≤ MAX_IMG_HEIGHT * (fitImageFallback 3000000 MAX_IMG_HEIGHT).1 ∧
    MAX_IMG_HEIGHT * (fitImageFallback 3000000 MAX_IMG_HEIGHT).1
      < ((fitImageFallback 3000000 MAX_IMG_HEIGHT).2 + 1) * 3000000 :=
  ⟨(image_fallback_bounds 3000000).1,
   ((image_fallback_bounds 3000000).2.2 (by decide)).1,
   ((image_fallback_bounds 3000000).2.2 (by decide)).2⟩

/-- Counterexample to C7 as stated: at width 3000000 EMU the scaled-down
picture has height 4180636 EMU, and 4180636 / 2743200 is not exactly
4572000 / 3000000 (the cross products differ), so the height/width ratio
is not preserved exactly. -/
theorem image_fallback_ratio_counterexample :
    MAX_IMG_WIDTH < 3000000 ∧
    fitImageFallback 3000000 MAX_IMG_HEIGHT = (2743200, 4180636) ∧
    4180636 * 3000000 ≠ MAX_IMG_HEIGHT * 2743200 := by
  refine ⟨by decide, ?_, by decide⟩
  unfold fitImageFallback
  norm_num [MAX_IMG_WIDTH, MAX_IMG_HEIGHT, emuOfInchHundredths]

/-- For the three single-band layout types the structural score is
100 minus the placeholder count on qualifying layouts and 0 otherwise. -/
theorem structScore_single_band (lt : String)
    (hlt : lt = "title_content" ∨ lt = "title_two_content" ∨ lt = "title_image_content")
    (l : Layout) :
    structScore lt l = if structQualifies lt l then 100 - (phCount l : Int) else 0 := by
  rcases hlt with h | h | h <;> subst h <;> simp [structScore, structQualifies]

/-- C2 (amended): for the single-band types (title_content,
title_two_content, title_image_content), when no non-excluded layout
matches by exact name or keyword and some non-excluded layout satisfies
the type's structural composition with fewer than 100 placeholders,
find_layout_by_type returns the first-encountered structurally
qualifying layout with the fewest total placeholders.  (For title_image
the body-free score band dominates the body-carrying band regardless of
placeholder counts, so the fewest-placeholders rule does not apply
across bands.) -/
theorem structural_tier_fewest_placeholders
    (lt : String)
    (hlt : lt = "title_content" ∨ lt = "title_two_content" ∨ lt = "title_image_content")
    (cfg : LayoutConfig) (hcfg : PREDEFINED_LAYOUTS lt = some cfg)
    (pre post : List Layout) (l0 : Layout)
    (hname : ∀ x ∈ pre ++ l0 :: post, excludedLayout x = false →
        toLowerStr x.name ≠ toLowerStr cfg.name)
    (hkw : ∀ x ∈ pre ++ l0 :: post, excludedLayout x = false → kwScore cfg x = 0)
    (hl0ex : excludedLayout l0 = false)
    (hl0q : structQualifies lt l0 = true)
    (hl0pc : phCount l0 < 100)
    (hpre : ∀ x ∈ pre, excludedLayout x = false → structQualifies lt x = true →
        phCount l0 < phCount x)
    (hpost : ∀ x ∈ post, excludedLayout x = false → structQualifies lt x = true →
        phCount l0 ≤ phCount x) :
    find_layout_by_type (pre ++ l0 :: post) lt = some l0 := by
  have hscore := structScore_single_band lt hlt
  have h1 : tierExactName (pre ++ l0 :: post) cfg = none := by
    unfold tierExactName
    rw [List.find?_eq_none]
    intro x hx
    by_cases hex : excludedLayout x = true
    · simp [hex]
    · have hne := hname x hx (Bool.not_eq_true _ ▸ hex)
      intro hcontra
      simp only [Bool.and_eq_true, beq_iff_eq] at hcontra
      exact hne hcontra.2
  have h2 : tierKeyword (pre ++ l0 :: post) cfg = none := by
    unfold tierKeyword
    apply scanBest_stable
    intro x hx hex
    rw [hkw x hx hex]
  have hl0pos : (0 : Int) < structScore lt l0 := by
    rw [hscore l0, if_pos hl0q]
    omega
  have h3 : tierStructural (pre ++ l0 :: post) lt = some l0 := by
    unfold tierStructural
    apply scanBest_first_max _ pre l0 post none 0 hl0ex hl0pos
    · intro x hx hex
      rw [hscore x, hscore l0, if_pos hl0q]
      by_cases hq : structQualifies lt x = true
      · rw [if_pos hq]
        have := hpre x hx hex hq
        omega
      · rw [if_neg hq]
        omega
    · intro x hx hex
      rw [hscore x, hscore l0, if_pos hl0q]
      by_cases hq : structQualifies lt x = true
      · rw [if_pos hq]
        have := hpost x hx hex hq
        omega
      · rw [if_neg hq]
        omega
  unfold find_layout_by_type tier123
  simp only [hcfg, h1, h2, h3]

/-- Witness for C2's amended theorem: with no name or keyword match, the
two-placeholder qualifying layout "qq" wins over the three-placeholder
qualifying layout "zz" that comes first. -/
theorem structural_tier_fewest_placeholders_witness :
    find_layout_by_type
      [⟨"zz", [PKind.title, PKind.body, PKind.other]⟩, ⟨"qq", [PKind.title, PKind.body]⟩]
      "title_content"
      = some ⟨"qq", [PKind.title, PKind.body]⟩ :=
  structural_tier_fewest_placeholders "title_content" (Or.inl rfl)
    ⟨"Title and Content", ["title", "content", "body", "text", "only"], false, 1⟩
    (by decide)
    [⟨"zz", [PKind.title, PKind.body, PKind.other]⟩] []
    ⟨"qq", [PKind.title, PKind.body]⟩
    (by decide) (by decide) (by decide) (by decide) (by decide) (by decide) (by decide)

/-- Counterexample to C2 as stated: for title_image, both "aaa" (three
placeholders, one body slot) and "bbb" (four placeholders, no body slot)
satisfy the type's accepted structural composition and neither the
exact-name nor the keyword tier matches, yet find_layout_by_type returns
"bbb", which does NOT have the fewest placeholders among the qualifiers:
the body-free 200-point band beats the body-carrying 50-point band. -/
theorem structural_tier_counterexample :
    excludedLayout ⟨"aaa", [PKind.title, PKind.picture, PKind.body]⟩ = false ∧
    excludedLayout ⟨"bbb", [PKind.title, PKind.picture, PKind.other, PKind.other]⟩ = false ∧
    tierExactName
      [⟨"aaa", [PKind.title, PKind.picture, PKind.body]⟩,
       ⟨"bbb", [PKind.title, PKind.picture, PKind.other, PKind.other]⟩]
      ⟨"Title and Image", ["picture", "image", "photo", "blank"], true, 0⟩ = none ∧
    tierKeyword
      [⟨"aaa", [PKind.title, PKind.picture, PKind.body]⟩,
       ⟨"bbb", [PKind.title, PKind.picture, PKind.other, PKind.other]⟩]
      ⟨"Title and Image", ["picture", "image", "photo", "blank"], true, 0⟩ = none ∧
    structQualifies "title_image" ⟨"aaa", [PKind.title, PKind.picture, PKind.body]⟩ = true ∧
    structQualifies "title_image"
      ⟨"bbb", [PKind.title, PKind.picture, PKind.other, PKind.other]⟩ = true ∧
    phCount ⟨"aaa", [PKind.title, PKind.picture, PKind.body]⟩
      < phCount ⟨"bbb", [PKind.title, PKind.picture, PKind.other, PKind.other]⟩ ∧
    find_layout_by_type
      [⟨"aaa", [PKind.title, PKind.picture, PKind.body]⟩,
       ⟨"bbb", [PKind.title, PKind.picture, PKind.other, PKind.other]⟩]
      "title_image"
      = some ⟨"bbb", [PKind.title, PKind.picture, PKind.other, PKind.other]⟩ := by
  decide

/-- A replacement pass over a text that does not contain the key leaves
the text unchanged (fuel-indexed worker). -/
theorem replaceAllAux_no_occurrence (key val : List Char) :
    ∀ fuel s, subList key s = false → replaceAllAux key val fuel s = s := by
  intro fuel
  induction fuel with
  | zero =>
    intro s _
    cases s <;> rfl
  | succ fuel ih =>
    intro s hs
    cases s with
    | nil => rfl
    | cons c rest =>
      unfold subList at hs
      rw [Bool.or_eq_false_iff] at hs
      unfold replaceAllAux
      rw [if_neg (by simp [hs.1])]
      rw [ih rest hs.2]

/-- The literal-replacement model leaves a text unchanged when the key
does not occur in it. -/
theorem replaceAll_no_occurrence (key val s : List Char) (h : subList key s = false) :
    replaceAll key val s = s := by
  unfold replaceAll
  by_cases hk : key.isEmpty = true
  · rw [if_pos hk]
  · rw [if_neg hk]
    exact replaceAllAux_no_occurrence key val s.length s h

/-- Applying all replacement passes to a text containing none of the
keys leaves the text unchanged. -/
theorem applyReplacements_no_key (ps : List (List Char × List Char)) (s : List Char)
    (h : ∀ p ∈ ps, subList p.1 s = false) :
    applyReplacements ps s = s := by
  induction ps with
  | nil => rfl
  | cons p rest ih =>
    unfold applyReplacements
    rw [List.foldl_cons, replaceAll_no_occurrence p.1 p.2 s (h p (by simp))]
    exact ih (fun q hq => h q (by simp [hq]))

/-- C8: process_paragraph keeps the paragraph's run count; when applying
all replacement patterns to the concatenation of the run texts changes
it, the full replaced text goes into the first run and every later run
is blanked; and a paragraph whose concatenated text contains no
replacement key is left unmodified.  (Keys are nonempty, as the config
loader guarantees.) -/
theorem process_paragraph_spec (ps : List (List Char × List Char)) (runs : List (List Char))
    (hkeys : ∀ p ∈ ps, p.1 ≠ []) :
    (process_paragraph ps runs).length = runs.length ∧
    (applyReplacements ps (concatRuns runs) ≠ concatRuns runs →
      process_paragraph ps runs
        = applyReplacements ps (concatRuns runs) :: List.replicate (runs.length - 1) []) ∧
    ((∀ p ∈ ps, subList p.1 (concatRuns runs) = false) → process_paragraph ps runs = runs) := by
  by_cases hre : runs = []
  · subst hre
    refine ⟨rfl, ?_, fun _ => rfl⟩
    intro hch
    exfalso
    apply hch
    apply applyReplacements_no_key
    intro p hp
    cases hp1 : p.1 with
    | nil => exact absurd hp1 (hkeys p hp)
    | cons c cs => rfl
  · have hne : ¬(runs.isEmpty = true) := by simp [List.isEmpty_iff, hre]
    by_cases hck : containsAnyKey ps (concatRuns runs) = true
    · by_cases hnew : applyReplacements ps (concatRuns runs) = concatRuns runs
      · have hproc : process_paragraph ps runs = runs := by
          unfold process_paragraph
          rw [if_neg hne, if_neg (by simp [hck]), if_pos hnew]
        exact ⟨by rw [hproc], fun hch => absurd hnew hch, fun _ => hproc⟩
      · have hproc : process_paragraph ps runs
            = applyReplacements ps (concatRuns runs) :: List.replicate (runs.length - 1) [] := by
          unfold process_paragraph
          rw [if_neg hne, if_neg (by simp [hck]), if_neg hnew]
        have hlen : runs.length ≠ 0 := by simp [hre]
        refine ⟨?_, fun _ => hproc, ?_⟩
        · rw [hproc]
          simp only [List.length_cons, List.length_replicate]
          omega
        · intro hnokey
          exact absurd (applyReplacements_no_key ps (concatRuns runs) hnokey) hnew
    · have hproc : process_paragraph ps runs = runs := by
        unfold process_paragraph
        rw [if_neg hne, if_pos (by simp [hck])]
      refine ⟨by rw [hproc], ?_, fun _ => hproc⟩
      intro hch
      exfalso
      apply hch
      apply applyReplacements_no_key
      intro p hp
      have := hck
      unfold containsAnyKey at this
      rw [Bool.not_eq_true] at this
      rw [List.any_eq_false] at this
      exact Bool.not_eq_true _ ▸ (this p hp)

/-- Witness for C8: the replacement "ab" to "X" applied to a paragraph
whose two runs are "a" and "b" rewrites the first run to "X" and blanks
the second. -/
theorem process_paragraph_spec_witness :
    process_paragraph [("ab".toList, "X".toList)] ["a".toList, "b".toList]
      = ["X".toList, []] ∧
    (process_paragraph [("ab".toList, "X".toList)] ["a".toList, "b".toList]).length = 2 :=
  ⟨(process_paragraph_spec [("ab".toList, "X".toList)] ["a".toList, "b".toList]
      (by decide)).2.1 (by decide),
   (process_paragraph_spec [("ab".toList, "X".toList)] ["a".toList, "b".toList]
      (by decide)).1⟩

/-- After `replacements[k] = v`, looking up `k` yields `v`. -/
theorem alLookup_alUpsert_self (m : List (String × String)) (k v : String) :
    alLookup (alUpsert m k v) k = some v := by
  induction m with
  | nil => simp [alUpsert, alLookup]
  | cons p rest ih =>
    unfold alUpsert
    by_cases hp : p.1 = k
    · rw [if_pos hp]
      unfold alLookup
      rw [if_pos hp]
    · rw [if_neg hp]
      unfold alLookup
      rw [if_neg hp]
      exact ih

/-- After `replacements[k] = v`, looking up any other key is unchanged. -/
theorem alLookup_alUpsert_ne (m : List (String × String)) (k v k2 : String)
    (h : k2 ≠ k) :
    alLookup (alUpsert m k v) k2 = alLookup m k2 := by
  induction m with
  | nil =>
    unfold alUpsert alLookup
    rw [if_neg (fun he => h he.symm)]
    rfl
  | cons p rest ih =>
    unfold alUpsert
    by_cases hp : p.1 = k
    · rw [if_pos hp]
      have hne2 : p.1 ≠ k2 := by
        rw [hp]
        exact fun he => h he.symm
      simp [alLookup, hne2]
    · rw [if_neg hp]
      unfold alLookup
      by_cases hq : p.1 = k2
      · rw [if_pos hq, if_pos hq]
      · rw [if_neg hq, if_neg hq]
        exact ih

/-- A key occurs in the updated mapping iff it occurs in the original or
equals the inserted key. -/
theorem mem_keys_alUpsert (m : List (String × String)) (k v a : String) :
    a ∈ (alUpsert m k v).map Prod.fst ↔ a ∈ m.map Prod.fst ∨ a = k := by
  induction m with
  | nil => simp [alUpsert]
  | cons p rest ih =>
    unfold alUpsert
    by_cases hp : p.1 = k
    · rw [if_pos hp]
      simp only [List.map_cons, List.mem_cons]
      constructor
      · rintro (h | h)
        · exact Or.inl (Or.inl h)
        · exact Or.inl (Or.inr h)
      · rintro ((h | h) | h)
        · exact Or.inl h
        · exact Or.inr h
        · rw [hp] at *
          exact Or.inl h
    · rw [if_neg hp]
      simp only [List.map_cons, List.mem_cons, ih]
      tauto

/-- Dict update preserves distinctness of the keys. -/
theorem keysNodup_alUpsert (m : List (String × String)) (k v : String)
    (h : keysNodup m) : keysNodup (alUpsert m k v) := by
  induction m with
  | nil => simp [alUpsert, keysNodup]
  | cons p rest ih =>
    unfold keysNodup at h
    simp only [List.map_cons, List.nodup_cons] at h
    unfold alUpsert
    by_cases hp : p.1 = k
    · rw [if_pos hp]
      unfold keysNodup
      simp only [List.map_cons, List.nodup_cons]
      exact h
    · rw [if_neg hp]
      unfold keysNodup
      simp only [List.map_cons, List.nodup_cons]
      refine ⟨?_, ih h.2⟩
      intro hmem
      rcases (mem_keys_alUpsert rest k v p.1).mp hmem with hin | heq
      · exact h.1 hin
      · exact hp heq

/-- A successful lookup exhibits a binding of the association list. -/
theorem mem_of_alLookup (m : List (String × String)) (a b : String)
    (h : alLookup m a = some b) : (a, b) ∈ m := by
  induction m with
  | nil => cases h
  | cons p rest ih =>
    unfold alLookup at h
    by_cases hp : p.1 = a
    · rw [if_pos hp] at h
      injection h with h2
      have : p = (a, b) := Prod.ext_iff.mpr ⟨hp, h2⟩
      rw [← this]
      exact List.mem_cons_self p rest
    · rw [if_neg hp] at h
      exact List.mem_cons.mpr (Or.inr (ih h))

/-- With distinct keys, every binding of the association list is found by
lookup. -/
theorem alLookup_of_mem (m : List (String × String)) (a b : String)
    (hnd : keysNodup m) (h : (a, b) ∈ m) : alLookup m a = some b := by
  induction m with
  | nil => cases h
  | cons p rest ih =>
    unfold keysNodup at hnd
    simp only [List.map_cons, List.nodup_cons] at hnd
    rcases List.mem_cons.mp h with heq | hmem
    · unfold alLookup
      rw [← heq]
      simp
    · have hane : p.1 ≠ a := by
        intro hcontra
        apply hnd.1
        rw [hcontra]
        exact List.mem_map.mpr ⟨(a, b), hmem, rfl⟩
      unfold alLookup
      rw [if_neg hane]
      exact ih hnd.2 hmem

/-- The replacements component of one parsing step: unchanged unless the
line parses to a key/value pair, in which case the dict is updated. -/
theorem processLine_replacements (st : LoadState) (idx : Nat) (raw : String) :
    (processLine st idx raw).replacements
      = match parseKV raw with
        | none => st.replacements
        | some kv => alUpsert st.replacements kv.1 kv.2 := by
  unfold processLine parseKV
  split_ifs <;> rfl

/-- The duplicates component of one parsing step: a duplicate warning is
recorded exactly when the parsed key is already bound to a different
value. -/
theorem processLine_duplicates (st : LoadState) (idx : Nat) (raw : String) :
    (processLine st idx raw).duplicates
      = match parseKV raw with
        | none => st.duplicates
        | some kv =>
          match alLookup st.replacements kv.1 with
          | some v0 => if v0 ≠ kv.2 then st.duplicates ++ [(idx, kv.1)] else st.duplicates
          | none => st.duplicates := by
  unfold processLine parseKV
  split_ifs <;> rfl

/-- The parsing loop distributes over appended line blocks. -/
theorem parseLoop_append (xs ys : List String) :
    ∀ (st : LoadState) (i : Nat),
      parseLoop st i (xs ++ ys) = parseLoop (parseLoop st i xs) (i + xs.length) ys := by
  induction xs with
  | nil => intro st i; simp [parseLoop]
  | cons x rest ih =>
    intro st i
    show parseLoop (processLine st i x) (i + 1) (rest ++ ys)
        = parseLoop (parseLoop (processLine st i x) (i + 1) rest) (i + (rest.length + 1)) ys
    rw [ih]
    have harith : i + 1 + rest.length = i + (rest.length + 1) := by omega
    rw [harith]

/-- The final mapping has distinct keys (it models a Python dict). -/
theorem parseLines_keysNodup (lines : List String) :
    keysNodup (parseLines lines).replacements := by
  unfold parseLines
  have : ∀ (ls : List String) (st : LoadState) (i : Nat), keysNodup st.replacements →
      keysNodup (parseLoop st i ls).replacements := by
    intro ls
    induction ls with
    | nil => intro st i h; exact h
    | cons raw rest ih =>
      intro st i h
      unfold parseLoop
      apply ih
      rw [processLine_replacements]
      cases parseKV raw with
      | none => exact h
      | some kv => exact keysNodup_alUpsert _ _ _ h
  exact this lines ⟨[], [], []⟩ 1 (by simp [keysNodup])

/-- Lines that never parse to key `k` leave the lookup of `k` unchanged
through the parsing loop. -/
theorem parseLoop_lookup_no_key (k : String) (ls : List String)
    (hno : ∀ raw ∈ ls, ∀ v, parseKV raw ≠ some (k, v)) :
    ∀ (st : LoadState) (i : Nat),
      alLookup (parseLoop st i ls).replacements k = alLookup st.replacements k := by
  induction ls with
  | nil => intro st i; rfl
  | cons raw rest ih =>
    intro st i
    unfold parseLoop
    rw [ih (fun r hr => hno r (by simp [hr]))]
    rw [processLine_replacements]
    cases hp : parseKV raw with
    | none => rfl
    | some kv =>
      obtain ⟨k2, v2⟩ := kv
      have hkne : k2 ≠ k := by
        intro hcontra
        exact hno raw (by simp) v2 (by rw [hp, hcontra])
      exact alLookup_alUpsert_ne _ _ _ _ (fun he => hkne he.symm)

/-- The inverse-pair list is nonempty exactly when the mapping contains
keys A, B with A bound to B and B bound to A. -/
theorem inversePairs_ne_nil_iff (m : List (String × String)) (hnd : keysNodup m) :
    inversePairs m ≠ [] ↔
      ∃ a b, alLookup m a = some b ∧ alLookup m b = some a := by
  constructor
  · intro hne
    rcases List.exists_mem_of_ne_nil _ hne with ⟨p, hp⟩
    rcases List.mem_filter.mp hp with ⟨hmem, hpred⟩
    have hba : alLookup m p.2 = some p.1 := by
      have := beq_iff_eq.mp hpred
      exact this
    exact ⟨p.1, p.2, alLookup_of_mem m p.1 p.2 hnd (by simpa using hmem), hba⟩
  · rintro ⟨a, b, hab, hba⟩
    have hmem : (a, b) ∈ m := mem_of_alLookup m a b hab
    have hpred : (alLookup m (a, b).2 == some (a, b).1) = true := beq_iff_eq.mpr hba
    exact List.ne_nil_of_mem (List.mem_filter.mpr ⟨hmem, hpred⟩)

/-- C9 (amended): load_replacements raises the inverse-pair error exactly
when the parsed mapping binds some A to B and that B back to A; the last
parsed value for a key wins (a later line that re-binds the key is
reflected, and lines that do not parse to the key never disturb it); and
a duplicate warning is recorded for a re-bound key exactly when the new
value differs from the stored one (a re-binding with the identical value
is silent). -/
theorem load_replacements_spec :
    (∀ lines : List String,
        isLoadError (load_replacements lines) = true ↔
          ∃ a b, alLookup (parseLines lines).replacements a = some b ∧
            alLookup (parseLines lines).replacements b = some a) ∧
    (∀ (pre post : List String) (raw k v : String), parseKV raw = some (k, v) →
        (∀ raw2 ∈ post, ∀ v2, parseKV raw2 ≠ some (k, v2)) →
        alLookup (parseLines (pre ++ raw :: post)).replacements k = some v) ∧
    (∀ (st : LoadState) (idx : Nat) (raw k v : String), parseKV raw = some (k, v) →
        (processLine st idx raw).duplicates
          = st.duplicates ++
            (match alLookup st.replacements k with
             | some v0 => if v0 ≠ v then [(idx, k)] else []
             | none => [])) := by
  refine ⟨?_, ?_, ?_⟩
  · intro lines
    have hnd := parseLines_keysNodup lines
    unfold load_replacements
    by_cases hemp : (inversePairs (parseLines lines).replacements).isEmpty = true
    · rw [if_pos hemp]
      simp only [isLoadError, Bool.false_eq_true, false_iff]
      intro hex
      have := (inversePairs_ne_nil_iff _ hnd).mpr hex
      exact this (List.isEmpty_iff.mp hemp)
    · rw [if_neg hemp]
      simp only [isLoadError, true_iff]
      apply (inversePairs_ne_nil_iff _ hnd).mp
      intro hcontra
      exact hemp (List.isEmpty_iff.mpr hcontra)
  · intro pre post raw k v hparse hno
    unfold parseLines
    rw [parseLoop_append]
    have hcons : parseLoop (parseLoop ⟨[], [], []⟩ 1 pre) (1 + pre.length) (raw :: post)
        = parseLoop
            (processLine (parseLoop ⟨[], [], []⟩ 1 pre) (1 + pre.length) raw)
            (1 + pre.length + 1) post := rfl
    rw [hcons, parseLoop_lookup_no_key k post hno, processLine_replacements, hparse]
    exact alLookup_alUpsert_self _ _ _
  · intro st idx raw k v hparse
    rw [processLine_duplicates, hparse]
    cases hl : alLookup st.replacements k with
    | none => simp [hl]
    | some v0 =>
      simp only [hl]
      by_cases hv : v0 = v <;> simp [hv]

/-- Witness for C9's amended theorem: the pair a to b, b to a raises the
error; the second definition of k wins; a value-changing duplicate
records one warning. -/
theorem load_replacements_spec_witness :
    isLoadError (load_replacements ["a=b", "b=a"]) = true ∧
    alLookup (parseLines (["k=first"] ++ "k=second" :: [])).replacements "k"
      = some "second" ∧
    (processLine ⟨[("k", "first")], [], []⟩ 2 "k=second").duplicates = [(2, "k")] := by
  refine ⟨?_, ?_, ?_⟩
  · exact (load_replacements_spec.1 ["a=b", "b=a"]).mpr
      ⟨"a", "b", by decide, by decide⟩
  · exact load_replacements_spec.2.1 ["k=first"] [] "k=second" "k" "second"
      (by decide) (by intro raw2 hr2; cases hr2)
  · rw [load_replacements_spec.2.2 ⟨[("k", "first")], [], []⟩ 2 "k=second" "k" "second"
      (by decide)]
    decide

/-- Counterexample to C9 as stated: the configuration lines "a=1", "a=1"
re-define the key "a" (both lines parse to the same pair), yet no
duplicate warning is recorded, because the loader warns only when the
new value differs from the stored one. -/
theorem load_replacements_duplicate_counterexample :
    parseKV "a=1" = some ("a", "1") ∧
    (parseLines ["a=1", "a=1"]).duplicates = [] ∧
    isLoadError (load_replacements ["a=1", "a=1"]) = false ∧
    (parseLines ["a=1", "a=1"]).replacements = [("a", "1")] := by
  decide

end SlideMaker
